import Mathlib

/-!
Verification development for the molecular-design-toolkit structural core
(`moldesign/structure/molecule.py`).

The Python code is shallowly embedded: Python dicts become association lists
(first binding wins, insertion order preserved, mutation of a value in place
becomes a functional update of the matching entries), numpy arrays of
coordinates become `List Int` compared element-wise (the source only ever
compares them for exact equality via `np.array_equal` / `(a == b).all()`),
`assert` statements and raised exceptions become `Option`/`Except` failures.
-/

namespace MolDesign

namespace Topology

/-- Adjacency map of one atom: association list from neighbor atom id to bond
order, in insertion order, mirroring a Python dict. -/
abbrev AdjMap := List (Nat × Nat)

/-- Bond graph: association list from atom id to that atom's adjacency map,
mirroring the dict built by `MolTopologyMixin._build_bonds`. -/
abbrev BondGraph := List (Nat × AdjMap)

/-- An atom as seen by `MolTopologyMixin._build_bonds`: an identity (dict key)
and the optional pre-existing local bond map (`atom.bond_graph`, which the code
treats as absent when the `bonds` attribute is missing or the map is `None`). -/
structure Atom where
  id : Nat
  bondGraph : Option AdjMap
  deriving Repr, DecidableEq

/-- Python dict lookup on an association list: the first binding wins. -/
def lookupA {κ α : Type} [DecidableEq κ] : κ → List (κ × α) → Option α
  | _, [] => none
  | k, (k', v) :: rest => if k = k' then some v else lookupA k rest

theorem lookupA_cons {κ α : Type} [DecidableEq κ] (x k : κ) (v : α) (l : List (κ × α)) :
    lookupA x ((k, v) :: l) = if x = k then some v else lookupA x l := rfl

/-- Mutate the map stored under key `k` in place (`bonds[nbr][atom] = ...`):
apply `f` to every entry carrying that key (the graphs built below have
duplicate-free keys, where this is ordinary dict item mutation). -/
def setG (k : Nat) (f : AdjMap → AdjMap) : BondGraph → BondGraph
  | [] => []
  | (k', m) :: rest =>
      if k = k' then (k', f m) :: setG k f rest else (k', m) :: setG k f rest

/-- First pass of `_build_bonds`: seed `bonds[atom]` with the atom's own local
bond map (or an empty dict), failing on `assert atom not in bonds` when an atom
appears twice in the list. -/
def buildBondsPass1 : List Atom → BondGraph → Option BondGraph
  | [], bonds => some bonds
  | a :: rest, bonds =>
      if (lookupA a.id bonds).isSome then none
      else buildBondsPass1 rest (bonds ++ [(a.id, a.bondGraph.getD [])])

/-- One iteration of the symmetrization loop body of `_build_bonds` for atom
`aid` and neighbor `b`:

* `bonds[nbr]` missing is a `KeyError` (failure);
* if `atom in bonds[nbr]`, `assert bonds[nbr][atom] == bonds[atom][nbr]`;
* otherwise `bonds[nbr][atom] = bonds[atom][nbr]`. -/
def symStep (aid b : Nat) (g : BondGraph) : Option BondGraph :=
  match lookupA b g, lookupA aid g with
  | some mb, some ma =>
      match lookupA b ma with
      | some k =>
          match lookupA aid mb with
          | some k2 => if k2 = k then some g else none
          | none => some (setG b (fun mm => mm ++ [(aid, k)]) g)
      | none => none
  | _, _ => none

/-- Symmetrization inner loop: `for nbr in bonds[atom]`, over the snapshot of
the neighbor keys of atom `aid` (its map is never mutated during its own loop,
see `symStep_self_lookup`). -/
def symNbrs (aid : Nat) : List Nat → BondGraph → Option BondGraph
  | [], g => some g
  | b :: rest, g => (symStep aid b g).bind (symNbrs aid rest)

/-- Symmetrization outer loop of `_build_bonds`: `for atom in atoms`. -/
def symPass : List Atom → BondGraph → Option BondGraph
  | [], g => some g
  | a :: rest, g =>
      match lookupA a.id g with
      | none => none
      | some ma => (symNbrs a.id (ma.map Prod.fst) g).bind (symPass rest)

/-- `MolTopologyMixin._build_bonds`: seed the per-atom maps, then make sure
both atoms of every bond have a record of it. -/
def buildBonds (atoms : List Atom) : Option BondGraph :=
  (buildBondsPass1 atoms []).bind (symPass atoms)

/-- Bond order between `a` and `b` as recorded in `a`'s adjacency map. -/
def adj (g : BondGraph) (a b : Nat) : Option Nat :=
  (lookupA a g).bind (lookupA b)

/-- Sum over the graph of the sizes of all atoms' adjacency maps
(`for atom in self.bond_graph: num_bonds += len(atom.bond_graph)`; after
`_build_bonds` each atom's own `bond_graph` dict is the graph's stored map). -/
def degSum (g : BondGraph) : Nat :=
  (g.map (fun p => p.2.length)).sum

/-- Bond counting of `MolTopologyMixin._rebuild_topology`:
`assert num_bonds % 2 == 0; self.num_bonds = num_bonds / 2`. -/
def rebuildNumBonds (g : BondGraph) : Option Nat :=
  if degSum g % 2 = 0 then some (degSum g / 2) else none

/-- Construction-time topology rebuild (`_rebuild_topology(bond_graph=None)`):
build the bond graph from the atoms, then count bonds. -/
def rebuildTopologyBonds (atoms : List Atom) : Option (BondGraph × Nat) :=
  match buildBonds atoms with
  | none => none
  | some g =>
      match rebuildNumBonds g with
      | none => none
      | some n => some (g, n)

/-! Basic lemmas about association-list lookup and update. -/

theorem lookupA_append_left {κ α : Type} [DecidableEq κ] {k : κ} {l l2 : List (κ × α)} {v : α}
    (h : lookupA k l = some v) : lookupA k (l ++ l2) = some v := by
  induction l with
  | nil => simp [lookupA] at h
  | cons p rest ih =>
    obtain ⟨k', w⟩ := p
    by_cases hk : k = k'
    · simpa [lookupA, hk] using h
    · simp [lookupA, hk] at h ⊢
      exact ih h

theorem lookupA_append_none {κ α : Type} [DecidableEq κ] {k : κ} {l : List (κ × α)} (l2 : List (κ × α))
    (h : lookupA k l = none) : lookupA k (l ++ l2) = lookupA k l2 := by
  induction l with
  | nil => simp
  | cons p rest ih =>
    obtain ⟨k', w⟩ := p
    by_cases hk : k = k'
    · simp [lookupA, hk] at h
    · simp [lookupA, hk] at h ⊢
      exact ih h

theorem lookupA_mem_keys {κ α : Type} [DecidableEq κ] {k : κ} {l : List (κ × α)} {v : α}
    (h : lookupA k l = some v) : k ∈ l.map Prod.fst := by
  induction l with
  | nil => simp [lookupA] at h
  | cons p rest ih =>
    obtain ⟨k', w⟩ := p
    by_cases hk : k = k'
    · simp [hk]
    · simp [lookupA, hk] at h
      simp [ih h]

theorem lookupA_setG (x k : Nat) (f : AdjMap → AdjMap) (g : BondGraph) :
    lookupA x (setG k f g) =
      if x = k then Option.map f (lookupA k g) else lookupA x g := by
  induction g with
  | nil => by_cases hx : x = k <;> simp [setG, lookupA, hx]
  | cons p rest ih =>
    obtain ⟨k', m⟩ := p
    by_cases hk : k = k' <;> by_cases hx : x = k'
    · subst hk; subst hx; simp [setG, lookupA]
    · subst hk
      have hxk : ¬ x = k := hx
      simp [setG, lookupA, hx, hxk, ih]
    · subst hx
      have hxk : ¬ x = k := fun h => hk h.symm
      simp [setG, lookupA, hk, hxk, Ne.symm hk]
    · simp [setG, lookupA, hk, hx, ih]

theorem setG_keys (k : Nat) (f : AdjMap → AdjMap) (g : BondGraph) :
    (setG k f g).map Prod.fst = g.map Prod.fst := by
  induction g with
  | nil => simp [setG]
  | cons p rest ih =>
    obtain ⟨k', m⟩ := p
    by_cases hk : k = k'
    · subst hk; simp [setG, ih]
    · simp [setG, hk, ih]

/-! Structure of a successful symmetrization step. -/

theorem symStep_spec {aid b : Nat} {g g' : BondGraph} (h : symStep aid b g = some g') :
    ∃ mb ma k, lookupA b g = some mb ∧ lookupA aid g = some ma ∧ lookupA b ma = some k ∧
      ((lookupA aid mb = some k ∧ g' = g) ∨
       (lookupA aid mb = none ∧ g' = setG b (fun mm => mm ++ [(aid, k)]) g)) := by
  unfold symStep at h
  split at h
  · rename_i mb ma hb ha
    split at h
    · rename_i k hk
      split at h
      · rename_i k2 hk2
        split at h
        · rename_i he
          exact ⟨mb, ma, k, hb, ha, hk, Or.inl ⟨he ▸ hk2, (Option.some_inj.mp h).symm⟩⟩
        · cases h
      · rename_i hk2
        exact ⟨mb, ma, k, hb, ha, hk, Or.inr ⟨hk2, (Option.some_inj.mp h).symm⟩⟩
    · cases h
  · cases h

/-- In the branch of the loop that adds a missing mirror entry, the neighbor is
a different atom: an atom never lacks its own self-entry while also having it. -/
theorem symStep_branch_ne {aid b : Nat} {g : BondGraph} {mb ma : AdjMap} {k : Nat}
    (hb : lookupA b g = some mb) (ha : lookupA aid g = some ma)
    (hk : lookupA b ma = some k) (hk2 : lookupA aid mb = none) : b ≠ aid := by
  intro he
  subst he
  rw [hb] at ha
  cases Option.some_inj.mp ha
  rw [hk] at hk2
  cases hk2

/-- Adding the mirror entry preserves every existing binding of the graph. -/
theorem adj_setG_append {aid b k : Nat} {g : BondGraph} {mb : AdjMap}
    (hb : lookupA b g = some mb)
    {x y v : Nat} (hxy : adj g x y = some v) :
    adj (setG b (fun mm => mm ++ [(aid, k)]) g) x y = some v := by
  unfold adj at hxy ⊢
  cases hx : lookupA x g with
  | none => rw [hx] at hxy; cases hxy
  | some mx =>
    rw [hx] at hxy
    simp only [Option.some_bind] at hxy
    rw [lookupA_setG]
    by_cases hxb : x = b
    · subst hxb
      rw [if_pos rfl, hb]
      rw [hx] at hb
      cases Option.some_inj.mp hb
      simp only [Option.map_some', Option.some_bind]
      exact lookupA_append_left hxy
    · rw [if_neg hxb, hx]
      simpa using hxy

theorem symStep_mono {aid b : Nat} {g g' : BondGraph} (h : symStep aid b g = some g')
    {x y v : Nat} (hxy : adj g x y = some v) : adj g' x y = some v := by
  obtain ⟨mb, ma, k, hb, ha, hk, hcase⟩ := symStep_spec h
  rcases hcase with ⟨_, rfl⟩ | ⟨_, rfl⟩
  · exact hxy
  · exact adj_setG_append hb hxy

theorem symStep_self_lookup {aid b : Nat} {g g' : BondGraph}
    (h : symStep aid b g = some g') : lookupA aid g' = lookupA aid g := by
  obtain ⟨mb, ma, k, hb, ha, hk, hcase⟩ := symStep_spec h
  rcases hcase with ⟨_, rfl⟩ | ⟨hk2, rfl⟩
  · rfl
  · rw [lookupA_setG, if_neg]
    exact fun he => symStep_branch_ne hb ha hk hk2 he.symm

theorem symStep_keys {aid b : Nat} {g g' : BondGraph} (h : symStep aid b g = some g') :
    g'.map Prod.fst = g.map Prod.fst := by
  obtain ⟨mb, ma, k, hb, ha, hk, hcase⟩ := symStep_spec h
  rcases hcase with ⟨_, rfl⟩ | ⟨_, rfl⟩
  · rfl
  · exact setG_keys _ _ _

/-- After a successful step for the pair `(aid, b)`, the bond is recorded
symmetrically, with the same order on both sides. -/
theorem symStep_sym {aid b : Nat} {g g' : BondGraph} (h : symStep aid b g = some g') :
    ∃ k, adj g' aid b = some k ∧ adj g' b aid = some k := by
  obtain ⟨mb, ma, k, hb, ha, hk, hcase⟩ := symStep_spec h
  refine ⟨k, ?_, ?_⟩
  · have hself : lookupA aid g' = lookupA aid g := symStep_self_lookup h
    unfold adj
    rw [hself, ha]
    simpa using hk
  · rcases hcase with ⟨hk2, rfl⟩ | ⟨hk2, rfl⟩
    · unfold adj; rw [hb]; simpa using hk2
    · unfold adj
      rw [lookupA_setG, if_pos rfl, hb]
      simp only [Option.map_some', Option.some_bind]
      rw [lookupA_append_none _ hk2]
      simp [lookupA]

/-- Symmetry invariant for a set of already-processed atom ids. -/
def InvOn (S : List Nat) (g : BondGraph) : Prop :=
  ∀ a ∈ S, ∀ b k, adj g a b = some k → adj g b a = some k

theorem InvOn_congr {S S' : List Nat} {g : BondGraph}
    (hss : ∀ x, x ∈ S ↔ x ∈ S') (h : InvOn S g) : InvOn S' g :=
  fun a ha => h a ((hss a).mpr ha)

theorem symStep_inv {aid b : Nat} {S : List Nat} {g g' : BondGraph}
    (h : symStep aid b g = some g') (hinv : InvOn S g) : InvOn S g' := by
  obtain ⟨mb, ma, k, hb, ha, hk, hcase⟩ := symStep_spec h
  rcases hcase with ⟨hk2, rfl⟩ | ⟨hk2, rfl⟩
  · exact hinv
  · intro a hmem c v hav
    have hbne : b ≠ aid := symStep_branch_ne hb ha hk hk2
    unfold adj at hav
    cases hx : lookupA a (setG b (fun mm => mm ++ [(aid, k)]) g) with
    | none => rw [hx] at hav; cases hav
    | some mx =>
      rw [hx] at hav
      simp only [Option.some_bind] at hav
      rw [lookupA_setG] at hx
      by_cases hab : a = b
      · subst hab
        rw [if_pos rfl, hb] at hx
        simp only [Option.map_some'] at hx
        cases Option.some_inj.mp hx
        cases hcv : lookupA c mb with
        | some v0 =>
          have hv0 : v0 = v := by
            have happ : lookupA c (mb ++ [(aid, k)]) = some v0 :=
              lookupA_append_left hcv
            rw [happ] at hav
            exact Option.some_inj.mp hav
          subst hv0
          have hold : adj g a c = some v0 := by
            unfold adj; rw [hb]; simpa using hcv
          have hmir : adj g c a = some v0 := hinv a hmem c v0 hold
          exact adj_setG_append hb hmir
        | none =>
          rw [lookupA_append_none _ hcv] at hav
          simp only [lookupA] at hav
          by_cases hcaid : c = aid
          · rw [if_pos hcaid] at hav
            cases Option.some_inj.mp hav
            subst hcaid
            unfold adj
            rw [lookupA_setG, if_neg (fun he => hbne he.symm), ha]
            simpa using hk
          · rw [if_neg hcaid] at hav; cases hav
      · rw [if_neg hab] at hx
        have hold : adj g a c = some v := by
          unfold adj; rw [hx]; simpa using hav
        exact adj_setG_append hb (hinv a hmem c v hold)

/-! Lifting the step lemmas through the inner symmetrization loop. -/

theorem symNbrs_mono {aid : Nat} {L : List Nat} {g g' : BondGraph}
    (h : symNbrs aid L g = some g') {x y v : Nat} (hxy : adj g x y = some v) :
    adj g' x y = some v := by
  induction L generalizing g with
  | nil => cases Option.some_inj.mp h; exact hxy
  | cons b rest ih =>
    unfold symNbrs at h
    cases hs : symStep aid b g with
    | none => rw [hs] at h; cases h
    | some g1 =>
      rw [hs] at h
      exact ih h (symStep_mono hs hxy)

theorem symNbrs_self_lookup {aid : Nat} {L : List Nat} {g g' : BondGraph}
    (h : symNbrs aid L g = some g') : lookupA aid g' = lookupA aid g := by
  induction L generalizing g with
  | nil => cases Option.some_inj.mp h; rfl
  | cons b rest ih =>
    unfold symNbrs at h
    cases hs : symStep aid b g with
    | none => rw [hs] at h; cases h
    | some g1 =>
      rw [hs] at h
      rw [ih h, symStep_self_lookup hs]

theorem symNbrs_keys {aid : Nat} {L : List Nat} {g g' : BondGraph}
    (h : symNbrs aid L g = some g') : g'.map Prod.fst = g.map Prod.fst := by
  induction L generalizing g with
  | nil => cases Option.some_inj.mp h; rfl
  | cons b rest ih =>
    unfold symNbrs at h
    cases hs : symStep aid b g with
    | none => rw [hs] at h; cases h
    | some g1 =>
      rw [hs] at h
      rw [ih h, symStep_keys hs]

theorem symNbrs_inv {aid : Nat} {L S : List Nat} {g g' : BondGraph}
    (h : symNbrs aid L g = some g') (hinv : InvOn S g) : InvOn S g' := by
  induction L generalizing g with
  | nil => cases Option.some_inj.mp h; exact hinv
  | cons b rest ih =>
    unfold symNbrs at h
    cases hs : symStep aid b g with
    | none => rw [hs] at h; cases h
    | some g1 =>
      rw [hs] at h
      exact ih h (symStep_inv hs hinv)

theorem symNbrs_sym {aid : Nat} {L : List Nat} {g g' : BondGraph}
    (h : symNbrs aid L g = some g') :
    ∀ b ∈ L, ∃ k, adj g' aid b = some k ∧ adj g' b aid = some k := by
  induction L generalizing g with
  | nil => intro b hb; cases hb
  | cons b0 rest ih =>
    unfold symNbrs at h
    cases hs : symStep aid b0 g with
    | none => rw [hs] at h; cases h
    | some g1 =>
      rw [hs] at h
      intro b hb
      rcases List.mem_cons.mp hb with rfl | hb
      · obtain ⟨k, h1, h2⟩ := symStep_sym hs
        exact ⟨k, symNbrs_mono h h1, symNbrs_mono h h2⟩
      · exact ih h b hb

/-! Lifting through the outer loop over atoms. -/

theorem symPass_mono {l : List Atom} {g g' : BondGraph}
    (h : symPass l g = some g') {x y v : Nat} (hxy : adj g x y = some v) :
    adj g' x y = some v := by
  induction l generalizing g with
  | nil => cases Option.some_inj.mp h; exact hxy
  | cons a rest ih =>
    unfold symPass at h
    split at h
    · cases h
    · rename_i ma ha
      cases hn : symNbrs a.id (List.map Prod.fst ma) g with
      | none => rw [hn] at h; cases h
      | some g1 =>
        rw [hn] at h
        exact ih h (symNbrs_mono hn hxy)

theorem symPass_keys {l : List Atom} {g g' : BondGraph}
    (h : symPass l g = some g') : g'.map Prod.fst = g.map Prod.fst := by
  induction l generalizing g with
  | nil => cases Option.some_inj.mp h; rfl
  | cons a rest ih =>
    unfold symPass at h
    split at h
    · cases h
    · rename_i ma ha
      cases hn : symNbrs a.id (List.map Prod.fst ma) g with
      | none => rw [hn] at h; cases h
      | some g1 =>
        rw [hn] at h
        rw [ih h, symNbrs_keys hn]

theorem symPass_inv {l : List Atom} {S : List Nat} {g g' : BondGraph}
    (h : symPass l g = some g') (hinv : InvOn S g) :
    InvOn (S ++ l.map (fun a => a.id)) g' := by
  induction l generalizing g S with
  | nil =>
    cases Option.some_inj.mp h
    exact InvOn_congr (by simp) hinv
  | cons a rest ih =>
    unfold symPass at h
    split at h
    · cases h
    · rename_i ma ha
      cases hn : symNbrs a.id (List.map Prod.fst ma) g with
      | none => rw [hn] at h; cases h
      | some g1 =>
        rw [hn] at h
        have hS : InvOn S g1 := symNbrs_inv hn hinv
        have hself : lookupA a.id g1 = some ma := by
          rw [symNbrs_self_lookup hn, ha]
        have hnew : ∀ b k, adj g1 a.id b = some k → adj g1 b a.id = some k := by
          intro b k hab
          unfold adj at hab
          rw [hself] at hab
          simp only [Option.some_bind] at hab
          have hbmem : b ∈ ma.map Prod.fst := lookupA_mem_keys hab
          obtain ⟨k', h1, h2⟩ := symNbrs_sym hn b hbmem
          have : some k' = some k := by
            rw [← h1]
            unfold adj
            rw [hself]
            simpa using hab
          cases Option.some_inj.mp this
          exact h2
        have hS' : InvOn (S ++ [a.id]) g1 := by
          intro x hx b k hxb
          rcases List.mem_append.mp hx with hx | hx
          · exact hS x hx b k hxb
          · rcases List.mem_singleton.mp hx with rfl
            exact hnew b k hxb
        have := ih h hS'
        exact InvOn_congr (by intro x; simp [List.mem_append, or_assoc]) this

/-! Properties of the seeding pass. -/

theorem pass1_pres {l : List Atom} {acc g : BondGraph} {x : Nat} {v : AdjMap}
    (h : buildBondsPass1 l acc = some g) (hx : lookupA x acc = some v) :
    lookupA x g = some v := by
  induction l generalizing acc with
  | nil => cases Option.some_inj.mp h; exact hx
  | cons a rest ih =>
    unfold buildBondsPass1 at h
    by_cases hdup : (lookupA a.id acc).isSome
    · rw [if_pos hdup] at h; cases h
    · rw [if_neg hdup] at h
      exact ih h (lookupA_append_left hx)

theorem pass1_mem {l : List Atom} {acc g : BondGraph}
    (h : buildBondsPass1 l acc = some g) :
    ∀ a ∈ l, lookupA a.id g = some (a.bondGraph.getD []) := by
  induction l generalizing acc with
  | nil => intro a ha; cases ha
  | cons a0 rest ih =>
    unfold buildBondsPass1 at h
    by_cases hdup : (lookupA a0.id acc).isSome
    · rw [if_pos hdup] at h; cases h
    · rw [if_neg hdup] at h
      intro a ha
      rcases List.mem_cons.mp ha with rfl | ha
      · have hnone : lookupA a.id acc = none := Option.not_isSome_iff_eq_none.mp hdup
        have : lookupA a.id (acc ++ [(a.id, a.bondGraph.getD [])]) =
            some (a.bondGraph.getD []) := by
          rw [lookupA_append_none _ hnone]
          simp [lookupA]
        exact pass1_pres h this
      · exact ih h a ha

theorem pass1_keys {l : List Atom} {acc g : BondGraph}
    (h : buildBondsPass1 l acc = some g) :
    g.map Prod.fst = acc.map Prod.fst ++ l.map (fun a => a.id) := by
  induction l generalizing acc with
  | nil => cases Option.some_inj.mp h; simp
  | cons a rest ih =>
    unfold buildBondsPass1 at h
    by_cases hdup : (lookupA a.id acc).isSome
    · rw [if_pos hdup] at h; cases h
    · rw [if_neg hdup] at h
      have := ih h
      simpa using this

/-- Whenever `_build_bonds` completes, the resulting bond graph is symmetric. -/
theorem buildBonds_sym {atoms : List Atom} {g : BondGraph}
    (h : buildBonds atoms = some g) :
    ∀ a b k, adj g a b = some k → adj g b a = some k := by
  unfold buildBonds at h
  cases h0 : buildBondsPass1 atoms [] with
  | none => rw [h0] at h; cases h
  | some g0 =>
    rw [h0] at h
    simp only [Option.some_bind] at h
    intro a b k hab
    have hinv : InvOn ([] ++ atoms.map (fun a => a.id)) g := symPass_inv h (by intro x hx; cases hx)
    have hmem : a ∈ g.map Prod.fst := by
      unfold adj at hab
      cases hx : lookupA a g with
      | none => rw [hx] at hab; cases hab
      | some mx => exact lookupA_mem_keys hx
    have hkeys : g.map Prod.fst = atoms.map (fun a => a.id) := by
      rw [symPass_keys h, pass1_keys h0]
      simp
    rw [hkeys] at hmem
    exact hinv a (by simpa using hmem) b k hab

/-- When two atoms of the list both carry a pre-existing entry for each other
with different bond orders, `_build_bonds` cannot complete. -/
theorem buildBonds_inconsistent {atoms : List Atom} {A B : Atom} {mA mB : AdjMap}
    {k1 k2 : Nat} (hA : A ∈ atoms) (hB : B ∈ atoms)
    (hmA : A.bondGraph = some mA) (hmB : B.bondGraph = some mB)
    (hk1 : lookupA B.id mA = some k1) (hk2 : lookupA A.id mB = some k2)
    (hne : k1 ≠ k2) : buildBonds atoms = none := by
  cases h : buildBonds atoms with
  | none => rfl
  | some g =>
    exfalso
    have hsym := buildBonds_sym h
    unfold buildBonds at h
    cases h0 : buildBondsPass1 atoms [] with
    | none => rw [h0] at h; cases h
    | some g0 =>
      rw [h0] at h
      simp only [Option.some_bind] at h
      have hA0 : lookupA A.id g0 = some mA := by
        have := pass1_mem h0 A hA
        rwa [hmA] at this
      have hB0 : lookupA B.id g0 = some mB := by
        have := pass1_mem h0 B hB
        rwa [hmB] at this
      have hab : adj g A.id B.id = some k1 := by
        refine symPass_mono h ?_
        unfold adj
        rw [hA0]
        simpa using hk1
      have hba : adj g B.id A.id = some k2 := by
        refine symPass_mono h ?_
        unfold adj
        rw [hB0]
        simpa using hk2
      have := hsym A.id B.id k1 hab
      rw [this] at hba
      exact hne (Option.some_inj.mp hba)

/-- C1: for every list of atoms accepted by topology construction (no atom
appearing twice), the bond graph built by `_build_bonds` is symmetric — every
neighbor entry has a matching mirror entry with the same bond order — and two
pre-existing mutual entries with different bond orders make construction fail
rather than produce a graph. -/
theorem build_bonds_symmetric_c1 :
    (∀ (atoms : List Atom) (g : BondGraph), buildBonds atoms = some g →
       ∀ a b k, adj g a b = some k → adj g b a = some k) ∧
    (∀ (atoms : List Atom) (A B : Atom) (mA mB : AdjMap) (k1 k2 : Nat),
       A ∈ atoms → B ∈ atoms → A.bondGraph = some mA → B.bondGraph = some mB →
       lookupA B.id mA = some k1 → lookupA A.id mB = some k2 → k1 ≠ k2 →
       buildBonds atoms = none) :=
  ⟨fun _ _ h => buildBonds_sym h,
   fun _ _ _ _ _ _ _ hA hB hmA hmB hk1 hk2 hne =>
     buildBonds_inconsistent hA hB hmA hmB hk1 hk2 hne⟩

/-- Concrete two-atom molecule: atom 0 declares a bond of order 2 to atom 1,
atom 1 carries no map of its own. -/
def atomsW : List Atom := [⟨0, some [(1, 2)]⟩, ⟨1, none⟩]

/-- The symmetric graph `_build_bonds` produces for `atomsW`. -/
def gW : BondGraph := [(0, [(1, 2)]), (1, [(0, 2)])]

/-- Concrete inconsistent pair: the two atoms record each other with orders 1
and 2 respectively. -/
def atomsBad : List Atom := [⟨0, some [(1, 1)]⟩, ⟨1, some [(0, 2)]⟩]

/-- Witness for C1 at concrete inputs: the mirror entry of the 0–2 bond really
is produced, and the inconsistent pair really fails. -/
theorem build_bonds_symmetric_c1_witness :
    adj gW 1 0 = some 2 ∧ buildBonds atomsBad = none :=
  ⟨build_bonds_symmetric_c1.1 atomsW gW (by decide) 0 1 2 (by decide),
   build_bonds_symmetric_c1.2 atomsBad ⟨0, some [(1, 1)]⟩ ⟨1, some [(0, 2)]⟩
     [(1, 1)] [(0, 2)] 1 2 (by decide) (by decide) rfl rfl (by decide) (by decide)
     (by decide)⟩

/-- C2: after every topology rebuild — at construction and on any explicitly
supplied graph, as in the add-atoms path — `num_bonds` equals half the sum of
the sizes of all atoms' adjacency maps, that sum is even (an odd sum makes the
internal `assert num_bonds % 2 == 0` fail instead), and the count is an exact
integer (`2 * num_bonds` gives back the sum). -/
theorem num_bonds_half_degree_sum_c2 :
    (∀ (g : BondGraph) (n : Nat), rebuildNumBonds g = some n →
       2 * n = degSum g ∧ degSum g % 2 = 0) ∧
    (∀ (atoms : List Atom) (g : BondGraph) (n : Nat),
       rebuildTopologyBonds atoms = some (g, n) →
       2 * n = degSum g ∧ degSum g % 2 = 0) := by
  constructor
  · intro g n h
    unfold rebuildNumBonds at h
    split at h
    · rename_i heven
      cases Option.some_inj.mp h
      exact ⟨Nat.mul_div_cancel' (Nat.dvd_of_mod_eq_zero heven), heven⟩
    · cases h
  · intro atoms g n h
    unfold rebuildTopologyBonds at h
    split at h
    · cases h
    · rename_i g1 hg1
      cases hn : rebuildNumBonds g1 with
      | none => rw [hn] at h; cases h
      | some n1 =>
        rw [hn] at h
        simp only [Option.some_inj] at h
        cases h
        unfold rebuildNumBonds at hn
        split at hn
        · rename_i heven
          cases Option.some_inj.mp hn
          exact ⟨Nat.mul_div_cancel' (Nat.dvd_of_mod_eq_zero heven), heven⟩
        · cases hn

/-- Witness for C2 at a concrete input: the two-atom, one-bond graph has
degree sum 2 and bond count 1. -/
theorem num_bonds_half_degree_sum_c2_witness :
    2 * 1 = degSum gW ∧ degSum gW % 2 = 0 :=
  num_bonds_half_degree_sum_c2.1 gW 1 (by decide)

end Topology

namespace Core

/-- A molecular property value: either an opaque quantity or a coordinate
array (the value stored under the `positions` key). -/
inductive PVal where
  | num (n : Int)
  | arr (xs : List Int)
  deriving Repr, DecidableEq

/-- Python dict item assignment: overwrite an existing binding in place, or
append a new binding in insertion order (lookup is the shared association-list
lookup `Topology.lookupA`). -/
def setS {α : Type} (k : String) (v : α) (l : List (String × α)) : List (String × α) :=
  if (Topology.lookupA k l).isSome then l.map (fun kv => if kv.1 = k then (k, v) else kv)
  else l ++ [(k, v)]

/-- `MolecularProperties`: a `DotDict` whose constructor always installs a
`positions` entry (`positions=mol.positions.copy()`, kept here as a
distinguished field) next to the calculated property entries. -/
structure MolecularProperties where
  positions : List Int
  props : List (String × PVal)
  deriving Repr, DecidableEq

namespace MolecularProperties

/-- Dict lookup on the snapshot; the `positions` key is always present. -/
def getVal (p : MolecularProperties) (name : String) : Option PVal :=
  if name = "positions" then some (PVal.arr p.positions)
  else Topology.lookupA name p.props

/-- Python `name in properties`. -/
def hasKey (p : MolecularProperties) (name : String) : Bool :=
  (p.getVal name).isSome

/-- `MolecularProperties.geometry_matches`:
`np.array_equal(self.positions, mol.positions)`. -/
def geometry_matches (p : MolecularProperties) (cur : List Int) : Bool :=
  decide (p.positions = cur)

/-- `MolecularProperties(mol)`: a fresh snapshot holding only a copy of the
molecule's current positions and no calculated values. -/
def ofMol (cur : List Int) : MolecularProperties := ⟨cur, []⟩

/-- Modelled from the spec: `utils.DotDict` (not among the given sources) is a
dynamic attribute bag, a plain `dict` subclass with attribute access, so
`self.properties.update(other)` is Python's `dict.update`: every binding of
`other` overwrites or extends `self`, including the mandatory `positions`
binding, with no validation. -/
def updateWith (p q : MolecularProperties) : MolecularProperties :=
  ⟨q.positions, q.props.foldl (fun acc kv => setS kv.1 kv.2 acc) p.props⟩

end MolecularProperties

/-- An atom as the property/constraint layer sees it: identity, atomic number
(`atom.atnum`), flat-array index and owning molecule (`atom.parent`). -/
structure Atom where
  id : Nat
  atnum : Nat
  index : Nat
  parent : Option Nat
  deriving Repr, DecidableEq

/-- A residue, reduced to the classification tag `residue.type` that
`dynamic_dof` consults. -/
structure Residue where
  type : String
  deriving Repr, DecidableEq

/-- The energy-model collaborator as `Molecule` manipulates it: the `_prepped`
flag, the `mol` back-reference, `DEFAULT_PROPERTIES`, and the `params` dict
restricted to the one option the molecule touches (`charge`, which can be
missing from `params` entirely, present but unset, or set). -/
structure EnergyModel where
  prepped : Bool
  mol : Option Nat
  default_properties : List String
  has_charge_option : Bool
  charge : Option Int
  deriving Repr, DecidableEq

/-- The integrator collaborator: the `_prepped` flag and the `params` entries
`dynamic_dof` consults (`remove_translation`, `remove_rotation`, and the
optional `constraints` option set). -/
structure Integrator where
  prepped : Bool
  remove_translation : Bool
  remove_rotation : Bool
  constraint_opts : Option (List String)
  deriving Repr, DecidableEq

/-- The four geometric constraint kinds of the constraint mixin. -/
inductive ConstraintKind where
  | fixedPosition
  | distance
  | angle
  | dihedral
  deriving Repr, DecidableEq

/-- Modelled from the spec: the numeric measurement functions (current
position/distance/angle/dihedral) live in the `moldesign.geom` package, which
is not among the given sources; the spec only requires that the default target
is "the current geometric value". A target is therefore either the explicitly
given value or the geometric value determined by the constrained atoms'
current coordinates. -/
inductive TargetValue where
  | given (v : PVal)
  | geometricValue (kind : ConstraintKind) (coords : List (List Int))
  deriving Repr, DecidableEq

/-- Modelled from the spec: each constraint carries a
degrees-of-freedom-removed count (`constraint.dof`); the concrete values live
in the missing geom module — a fixed position removes one DOF per coordinate,
the scalar constraints remove one each. No theorem below depends on these
numbers. -/
def dof_removed : ConstraintKind → Int
  | .fixedPosition => 3
  | _ => 1

/-- A geometric constraint as stored in `mol.constraints`. -/
structure Constraint where
  kind : ConstraintKind
  atomIds : List Nat
  value : TargetValue
  dof : Int
  deriving Repr, DecidableEq

/-- The `ForeignAtomError` raised when a constraint references an atom of a
different molecule. -/
inductive ForeignAtomError where
  | mk
  deriving Repr, DecidableEq

/-- The `NotCalculatedError` raised by `get_property`, carrying its two
message arguments. -/
structure NotCalculatedError where
  msg : String
  suggestion : String
  deriving Repr, DecidableEq

/-- Message pair of the `NotCalculatedError` that `get_property` raises: the
first argument names the missing property, the second suggests the
`.calc_<name>()` method (the source interpolates `name` into the two format
strings; the surrounding quote characters and the contraction of the original
text are left out of the model). -/
def notCalculated (name : String) : NotCalculatedError :=
  ⟨"The " ++ name ++ " property has not been calculated yet. ",
   "Calculate it with the .calc_" ++ name ++ "() method"⟩

/-- The Molecule state on which the property-cache, DOF, constraint and
model-coordination claims depend: `positions` is the flat coordinate buffer,
`raw_properties` the stored `_properties` attribute, `dof_override` the
explicit `_dof` value. -/
structure Molecule where
  mid : Nat
  atoms : List Atom
  residues : List Residue
  positions : List Int
  charge : Int
  constraints : List Constraint
  energy_model : Option EnergyModel
  integrator : Option Integrator
  raw_properties : MolecularProperties
  dof_override : Option Int
  deriving Repr, DecidableEq

namespace Molecule

/-- `self.ndims`, maintained by `_rebuild_topology` as `3 * self.num_atoms`. -/
def ndims (m : Molecule) : Int := 3 * m.atoms.length

/-- Property getter `Molecule.properties`: if the stored snapshot's geometry no
longer matches the current positions, silently replace it with a fresh
snapshot holding only the current positions; return the (possibly fresh)
snapshot together with the possibly mutated molecule. -/
def propertiesGet (m : Molecule) : MolecularProperties × Molecule :=
  if m.raw_properties.geometry_matches m.positions then (m.raw_properties, m)
  else
    let fresh := MolecularProperties.ofMol m.positions
    (fresh, { m with raw_properties := fresh })

/-- Property setter `Molecule.properties = val`: assert that the snapshot
matches the current geometry, then store it. -/
def propertiesSet (m : Molecule) (val : MolecularProperties) : Option Molecule :=
  if val.geometry_matches m.positions then some { m with raw_properties := val }
  else none

/-- `MolPropertyMixin.get_property`: return `self.properties[name]` when
`name in self.properties and np.array_equal(self.properties.positions,
self.positions)`, raise `NotCalculatedError` otherwise. -/
def get_property (m : Molecule) (name : String) :
    Except NotCalculatedError PVal × Molecule :=
  let pm := m.propertiesGet
  match pm.1.getVal name with
  | some v =>
      if pm.1.geometry_matches pm.2.positions then (Except.ok v, pm.2)
      else (Except.error (notCalculated name), pm.2)
  | none => (Except.error (notCalculated name), pm.2)

/-- `MolPropertyMixin.update_properties`: the `self.properties is None` test
evaluates the getter (which never yields `None`, but may replace a stale
cache); the else branch asserts
`(self.positions == properties.positions).all()` and then calls
`self.properties.update()` — Python's `dict.update` with no argument, a no-op,
so the incoming values are never stored. -/
def update_properties (m : Molecule) (p : MolecularProperties) : Option Molecule :=
  let m1 := m.propertiesGet.2
  if m1.positions = p.positions then some m1 else none

/-- The property-name set `calculate` decides to compute: the requested names
plus the model's `DEFAULT_PROPERTIES` (as a set), minus — `use_cache=True` —
the keys already present in the geometry-matching cache. -/
def toCalculate (m : Molecule) (em : EnergyModel) (requests : List String) :
    List String :=
  ((requests ++ em.default_properties).dedup).filter
    (fun n => !(m.propertiesGet.1.hasKey n))

/-- `Molecule.calculate(requests, wait=True, use_cache=True)`: compute the
outstanding names through the model (the resolved model output is supplied as
the function `modelCalc`), merge the result into the cache via
`self.properties.update(properties)` — a plain dict update with no geometry
validation — and return `self.properties`, i.e. the cache as re-read after the
merge. Fails only when no energy model is bound. -/
def calculate (m : Molecule) (requests : List String)
    (modelCalc : List String → MolecularProperties) :
    Option (MolecularProperties × Molecule) :=
  match m.energy_model with
  | none => none
  | some em =>
      let pm := m.propertiesGet
      let to_calc := toCalculate m em requests
      let result := if to_calc.isEmpty then pm.1 else modelCalc to_calc
      let merged := pm.1.updateWith result
      let m2 := { pm.2 with raw_properties := merged }
      let rm := m2.propertiesGet
      some (rm.1, rm.2)

/-- `Molecule._reset_methods`: clear both bound collaborators' `_prepped`
flags. -/
def reset_methods (m : Molecule) : Molecule :=
  { m with
    energy_model := m.energy_model.map (fun em => { em with prepped := false }),
    integrator := m.integrator.map (fun i => { i with prepped := false }) }

/-- `Molecule.set_energy_model`: bind the model, reinstall a fresh empty
property snapshot at the current geometry (through the property setter, whose
assert trivially passes for a fresh snapshot), set the model's back-reference,
copy the molecule's charge into an unset `charge` option, print a warning on a
mismatched explicitly-set charge, and clear the model's `_prepped` flag. The
returned Bool records whether the warning was printed. -/
def set_energy_model (m : Molecule) (model : EnergyModel) : Molecule × Bool :=
  let model1 := { model with mol := some m.mid }
  let chargeStep :=
    if model1.has_charge_option then
      match model1.charge with
      | none => ({ model1 with charge := some m.charge }, false)
      | some c => (model1, decide (c ≠ m.charge))
    else (model1, false)
  let model2 := { chargeStep.1 with prepped := false }
  ({ m with energy_model := some model2,
            raw_properties := MolecularProperties.ofMol m.positions },
   chargeStep.2)

/-- `MolPropertyMixin.dynamic_dof`: the explicitly set `_dof` if any, else
`ndims` minus the ordered ladder of subtractions (translation, rotation for
more than two atoms, one per hydrogen atom under `hbonds`, 7-or-9 per water
residue under `water`, then each constraint's own `dof`). -/
def dynamic_dof (m : Molecule) : Int :=
  match m.dof_override with
  | some d => d
  | none =>
      let df0 : Int := m.ndims
      let df1 :=
        match m.integrator with
        | none => df0
        | some i =>
            let a := if i.remove_translation then df0 - 3 else df0
            let b :=
              if i.remove_rotation && decide (m.atoms.length > 2) then a - 2 else a
            match i.constraint_opts with
            | none => b
            | some copts =>
                let hb := copts.contains "hbonds"
                let c :=
                  if hb then
                    b - ((m.atoms.filter (fun x => x.atnum == 1)).length : Int)
                  else b
                if copts.contains "water" then
                  c - ((m.residues.filter (fun r => r.type == "water")).length : Int) *
                      (if hb then 7 else 9)
                else c
      df1 - (m.constraints.map (fun c => c.dof)).sum

/-- Coordinates of one atom: its 3-slot slice of the flat positions buffer
(`atom.parent_slice` is `slice(3*index, 3*index+3)`). -/
def atomCoords (m : Molecule) (a : Atom) : List Int :=
  (m.positions.drop (3 * a.index)).take 3

/-- Modelled from the spec: the constraint constructors
(`geom.FixedPosition`, `DistanceConstraint`, `AngleConstraint`,
`DihedralConstraint`) live in the missing `moldesign.geom` package; per the
spec they validate that every referenced atom belongs to this molecule
(failing with `ForeignAtomError` otherwise) and default the target value to
the current geometric value. The append and the `_reset_methods()` call are
from `molecule.py` itself. -/
def addConstraint (m : Molecule) (kind : ConstraintKind) (atomsIn : List Atom)
    (value : Option PVal) : Except ForeignAtomError (Constraint × Molecule) :=
  if atomsIn.all (fun a => a.parent == some m.mid) then
    let c : Constraint :=
      { kind := kind
        atomIds := atomsIn.map (fun a => a.id)
        value :=
          match value with
          | some v => TargetValue.given v
          | none =>
              TargetValue.geometricValue kind (atomsIn.map (fun a => atomCoords m a))
        dof := dof_removed kind }
    Except.ok (c, reset_methods { m with constraints := m.constraints ++ [c] })
  else Except.error ForeignAtomError.mk

/-- `MolConstraintMixin.constrain_atom`. -/
def constrain_atom (m : Molecule) (a : Atom) (pos : Option PVal) :
    Except ForeignAtomError (Constraint × Molecule) :=
  m.addConstraint .fixedPosition [a] pos

/-- `MolConstraintMixin.constrain_distance`. -/
def constrain_distance (m : Molecule) (a1 a2 : Atom) (dist : Option PVal) :
    Except ForeignAtomError (Constraint × Molecule) :=
  m.addConstraint .distance [a1, a2] dist

/-- `MolConstraintMixin.constrain_angle`. -/
def constrain_angle (m : Molecule) (a1 a2 a3 : Atom) (ang : Option PVal) :
    Except ForeignAtomError (Constraint × Molecule) :=
  m.addConstraint .angle [a1, a2, a3] ang

/-- `MolConstraintMixin.constrain_dihedral`. -/
def constrain_dihedral (m : Molecule) (a1 a2 a3 a4 : Atom) (ang : Option PVal) :
    Except ForeignAtomError (Constraint × Molecule) :=
  m.addConstraint .dihedral [a1, a2, a3, a4] ang

end Molecule

/-! Helper lemmas about the property getter and dict update. -/

theorem propertiesGet_fst_positions (m : Molecule) :
    (m.propertiesGet.1).positions = m.positions := by
  unfold Molecule.propertiesGet
  split
  · rename_i hmatch
    simpa [MolecularProperties.geometry_matches] using hmatch
  · rfl

theorem propertiesGet_snd (m : Molecule) :
    m.propertiesGet.2 = { m with raw_properties := m.propertiesGet.1 } := by
  unfold Molecule.propertiesGet
  split
  · rfl
  · rfl

theorem propertiesGet_of_match (m : Molecule)
    (h : m.raw_properties.positions = m.positions) :
    m.propertiesGet = (m.raw_properties, m) := by
  unfold Molecule.propertiesGet
  rw [if_pos]
  simp [MolecularProperties.geometry_matches, h]

theorem propertiesGet_of_mismatch (m : Molecule)
    (h : m.raw_properties.positions ≠ m.positions) :
    m.propertiesGet = (MolecularProperties.ofMol m.positions,
      { m with raw_properties := MolecularProperties.ofMol m.positions }) := by
  unfold Molecule.propertiesGet
  rw [if_neg]
  simp [MolecularProperties.geometry_matches, h]

theorem lookupA_map_over {α : Type} (x k : String) (v : α) (l : List (String × α)) :
    Topology.lookupA x (l.map (fun kv => if kv.1 = k then (k, v) else kv)) =
      if x = k then (Topology.lookupA k l).map (fun _ => v)
      else Topology.lookupA x l := by
  induction l with
  | nil => by_cases hx : x = k <;> simp [Topology.lookupA, hx]
  | cons p rest ih =>
    obtain ⟨k1, w⟩ := p
    rw [List.map_cons]
    by_cases h1 : k1 = k
    · have hhead : (if ((k1, w) : String × α).1 = k then (k, v) else (k1, w)) = (k, v) :=
        if_pos h1
      rw [hhead]
      by_cases hx : x = k
      · subst hx
        rw [Topology.lookupA_cons, if_pos rfl, if_pos rfl, Topology.lookupA_cons,
          if_pos h1.symm]
        rfl
      · have hx1 : ¬ x = k1 := fun he => hx (he.trans h1)
        rw [Topology.lookupA_cons, if_neg hx, ih, if_neg hx, if_neg hx,
          Topology.lookupA_cons, if_neg hx1]
    · have hhead : (if ((k1, w) : String × α).1 = k then (k, v) else (k1, w)) = (k1, w) :=
        if_neg h1
      rw [hhead]
      by_cases hx : x = k1
      · subst hx
        have hxk : ¬ x = k := h1
        rw [Topology.lookupA_cons, if_pos rfl, if_neg hxk, Topology.lookupA_cons,
          if_pos rfl]
      · rw [Topology.lookupA_cons, if_neg hx, ih]
        by_cases hxk : x = k
        · rw [if_pos hxk, if_pos hxk, Topology.lookupA_cons,
            if_neg (fun he => h1 he.symm)]
        · rw [if_neg hxk, if_neg hxk, Topology.lookupA_cons, if_neg hx]

theorem lookupA_setS {α : Type} (x k : String) (v : α) (l : List (String × α)) :
    Topology.lookupA x (setS k v l) =
      if x = k then some v else Topology.lookupA x l := by
  unfold setS
  split
  · rename_i hsome
    rw [lookupA_map_over]
    by_cases hx : x = k
    · obtain ⟨w, hw⟩ := Option.isSome_iff_exists.mp hsome
      simp [hx, hw]
    · simp [hx]
  · rename_i hnone
    have h0 : Topology.lookupA k l = (none : Option α) := by
      cases h : Topology.lookupA k l
      · rfl
      · rw [h] at hnone
        simp at hnone
    by_cases hx : x = k
    · subst hx
      rw [if_pos rfl, Topology.lookupA_append_none _ h0]
      simp [Topology.lookupA]
    · rw [if_neg hx]
      cases h : Topology.lookupA x l with
      | some w => rw [Topology.lookupA_append_left h]
      | none =>
        rw [Topology.lookupA_append_none _ h]
        simp [Topology.lookupA, hx]

theorem foldl_setS_isSome_mono {q acc : List (String × PVal)} {n : String}
    (h : (Topology.lookupA n acc).isSome = true) :
    (Topology.lookupA n (q.foldl (fun acc kv => setS kv.1 kv.2 acc) acc)).isSome
      = true := by
  induction q generalizing acc with
  | nil => simpa using h
  | cons kv rest ih =>
    simp only [List.foldl_cons]
    apply ih
    rw [lookupA_setS]
    by_cases hx : n = kv.1
    · simp [hx]
    · simpa [hx] using h

theorem foldl_setS_isSome_of_mem {q acc : List (String × PVal)} {n : String}
    (h : (Topology.lookupA n q).isSome = true) :
    (Topology.lookupA n (q.foldl (fun acc kv => setS kv.1 kv.2 acc) acc)).isSome
      = true := by
  induction q generalizing acc with
  | nil => simp [Topology.lookupA] at h
  | cons kv rest ih =>
    obtain ⟨k1, w⟩ := kv
    simp only [List.foldl_cons]
    by_cases hx : n = k1
    · apply foldl_setS_isSome_mono
      rw [lookupA_setS]
      simp [hx]
    · apply ih
      simpa [Topology.lookupA, hx] using h

theorem updateWith_positions (p q : MolecularProperties) :
    (p.updateWith q).positions = q.positions := rfl

theorem updateWith_hasKey_left {p q : MolecularProperties} {n : String}
    (h : p.hasKey n = true) : (p.updateWith q).hasKey n = true := by
  unfold MolecularProperties.hasKey MolecularProperties.getVal at h ⊢
  by_cases hn : n = "positions"
  · simp [hn]
  · rw [if_neg hn] at h ⊢
    unfold MolecularProperties.updateWith
    exact foldl_setS_isSome_mono h

theorem updateWith_hasKey_right {p q : MolecularProperties} {n : String}
    (h : q.hasKey n = true) : (p.updateWith q).hasKey n = true := by
  unfold MolecularProperties.hasKey MolecularProperties.getVal at h ⊢
  by_cases hn : n = "positions"
  · simp [hn]
  · rw [if_neg hn] at h ⊢
    unfold MolecularProperties.updateWith
    exact foldl_setS_isSome_of_mem h

/-- Geometry check of the snapshot the accessor hands out: always true. -/
theorem propertiesGet_geometry_matches (m : Molecule) :
    (m.propertiesGet.1).geometry_matches m.positions = true := by
  unfold MolecularProperties.geometry_matches
  simp [propertiesGet_fst_positions]

theorem get_property_ok_iff (m : Molecule) (name : String) (v : PVal) :
    (m.get_property name).1 = Except.ok v ↔
      ((m.propertiesGet.1).getVal name = some v ∧
       (m.propertiesGet.1).geometry_matches m.positions = true) := by
  have hpos2 : (m.propertiesGet.2).positions = m.positions := by
    rw [propertiesGet_snd]
  have hgm : (m.propertiesGet.1).geometry_matches (m.propertiesGet.2).positions
      = true := by
    rw [hpos2]
    exact propertiesGet_geometry_matches m
  unfold Molecule.get_property
  cases hgv : (m.propertiesGet.1).getVal name with
  | some w =>
    simp only [hgv, hgm, if_true]
    constructor
    · intro h
      cases h
      exact ⟨rfl, propertiesGet_geometry_matches m⟩
    · rintro ⟨h1, _⟩
      cases Option.some_inj.mp h1
      rfl
  | none =>
    simp only [hgv]
    constructor
    · intro h
      cases h
    · rintro ⟨h1, _⟩
      cases h1

theorem get_property_error_eq (m : Molecule) (name : String) (e : NotCalculatedError)
    (h : (m.get_property name).1 = Except.error e) : e = notCalculated name := by
  have hpos2 : (m.propertiesGet.2).positions = m.positions := by
    rw [propertiesGet_snd]
  have hgm : (m.propertiesGet.1).geometry_matches (m.propertiesGet.2).positions
      = true := by
    rw [hpos2]
    exact propertiesGet_geometry_matches m
  unfold Molecule.get_property at h
  cases hgv : (m.propertiesGet.1).getVal name with
  | some w =>
    simp [hgv, hgm] at h
  | none =>
    simp only [hgv] at h
    cases h
    rfl

theorem get_property_ok_of_cached (m : Molecule) (name : String)
    (hmatch : m.raw_properties.positions = m.positions)
    (hk : m.raw_properties.hasKey name = true) :
    ∃ v, (m.get_property name).1 = Except.ok v := by
  obtain ⟨v, hv⟩ := Option.isSome_iff_exists.mp hk
  refine ⟨v, ?_⟩
  rw [get_property_ok_iff]
  have hfst : m.propertiesGet.1 = m.raw_properties := by
    rw [propertiesGet_of_match m hmatch]
  rw [hfst]
  exact ⟨hv, by simp [MolecularProperties.geometry_matches, hmatch]⟩

theorem toCalculate_mem {m : Molecule} {em : EnergyModel} {requests : List String}
    {name : String} (hreq : name ∈ requests)
    (hck : (m.propertiesGet.1).hasKey name = false) :
    name ∈ m.toCalculate em requests := by
  unfold Molecule.toCalculate
  rw [List.mem_filter]
  exact ⟨List.mem_dedup.mpr (List.mem_append.mpr (Or.inl hreq)), by simp [hck]⟩

/-- The snapshot `calculate` writes back into the cache: the geometry-matching
cache dict-updated with whatever was computed (or with itself when nothing
was outstanding). -/
def mergedResult (m : Molecule) (em : EnergyModel) (requests : List String)
    (modelCalc : List String → MolecularProperties) : MolecularProperties :=
  (m.propertiesGet.1).updateWith
    (if (m.toCalculate em requests).isEmpty then m.propertiesGet.1
     else modelCalc (m.toCalculate em requests))

theorem calculate_eq_of_match (m : Molecule) (em : EnergyModel)
    (requests : List String) (modelCalc : List String → MolecularProperties)
    (hem : m.energy_model = some em)
    (hpos : (mergedResult m em requests modelCalc).positions = m.positions) :
    m.calculate requests modelCalc =
      some (mergedResult m em requests modelCalc,
        { m with raw_properties := mergedResult m em requests modelCalc }) := by
  have hsnd : m.propertiesGet.2 = { m with raw_properties := m.propertiesGet.1 } :=
    propertiesGet_snd m
  have hm2 : ∀ p q : MolecularProperties,
      ({ ({ m with raw_properties := p } : Molecule) with raw_properties := q } :
        Molecule) = { m with raw_properties := q } :=
    fun _ _ => rfl
  have hfin := propertiesGet_of_match
    ({ m with raw_properties := mergedResult m em requests modelCalc }) hpos
  simp only [Molecule.calculate, hem]
  rw [hsnd, hm2]
  unfold mergedResult at hfin ⊢
  rw [hfin]
  simp [hem]

theorem calculate_then_get (m : Molecule) (name : String) (requests : List String)
    (modelCalc : List String → MolecularProperties) (res : MolecularProperties)
    (m2 : Molecule)
    (hreq : name ∈ requests)
    (hf1 : ∀ s, name ∈ s → (modelCalc s).hasKey name = true)
    (hf2 : ∀ s, (modelCalc s).positions = m.positions)
    (hcalc : m.calculate requests modelCalc = some (res, m2)) :
    ∃ v, (m2.get_property name).1 = Except.ok v := by
  cases hem : m.energy_model with
  | none =>
    rw [Molecule.calculate, hem] at hcalc
    cases hcalc
  | some em =>
    have hpos : (mergedResult m em requests modelCalc).positions = m.positions := by
      unfold mergedResult
      rw [updateWith_positions]
      by_cases hic : (m.toCalculate em requests).isEmpty
      · rw [if_pos hic]
        exact propertiesGet_fst_positions m
      · rw [if_neg hic]
        exact hf2 _
    have hkey : (mergedResult m em requests modelCalc).hasKey name = true := by
      unfold mergedResult
      by_cases hck : (m.propertiesGet.1).hasKey name = true
      · exact updateWith_hasKey_left hck
      · have hck' : (m.propertiesGet.1).hasKey name = false := by
          simpa using hck
        have hmem : name ∈ m.toCalculate em requests := toCalculate_mem hreq hck'
        have hic : (m.toCalculate em requests).isEmpty = false := by
          cases htc : m.toCalculate em requests with
          | nil => rw [htc] at hmem; cases hmem
          | cons a rest => simp
        rw [hic]
        simp only [Bool.false_eq_true, if_false]
        exact updateWith_hasKey_right (hf1 _ hmem)
    rw [calculate_eq_of_match m em requests modelCalc hem hpos] at hcalc
    have hm2eq : m2 = { m with raw_properties := mergedResult m em requests modelCalc } := by
      cases Option.some_inj.mp hcalc
      rfl
    subst hm2eq
    exact get_property_ok_of_cached _ name hpos hkey

/-- The DOF ladder exactly as the amended claim C6 states it: `ndims` minus 3
for removed translation, minus 2 for removed rotation only when the molecule
has more than two atoms (nothing otherwise), minus one per hydrogen atom
(atomic number 1) when hbond constraints are configured, minus a flat 7
(hbonds already constrained) or 9 per water residue, minus each constraint's
own removed-DOF count. -/
def dofLadder (m : Molecule) : Int :=
  let copts :=
    match m.integrator with
    | some i => i.constraint_opts.getD []
    | none => []
  let hb := copts.contains "hbonds"
  m.ndims
    - (if (match m.integrator with
           | some i => i.remove_translation
           | none => false) then 3 else 0)
    - (if (match m.integrator with
           | some i => i.remove_rotation
           | none => false) && decide (m.atoms.length > 2) then 2 else 0)
    - (if hb then ((m.atoms.filter (fun x => x.atnum == 1)).length : Int) else 0)
    - (if copts.contains "water" then
         ((m.residues.filter (fun r => r.type == "water")).length : Int) *
           (if hb then 7 else 9)
       else 0)
    - (m.constraints.map (fun c => c.dof)).sum

end Core

/-! Claim theorems. -/

/-- C10: every read of the `Molecule.properties` accessor returns a snapshot
whose stored positions equal the molecule's current positions; when the stored
snapshot is stale the accessor silently installs a fresh snapshot containing
only a copy of the current positions, so the previously cached values are lost
on that read and stay lost under any later change of geometry, including a
restoration of the old positions. -/
theorem properties_accessor_fresh_c10 (m : Core.Molecule) :
    ((m.propertiesGet.1).positions = m.positions) ∧
    (m.raw_properties.positions = m.positions →
      m.propertiesGet = (m.raw_properties, m)) ∧
    (m.raw_properties.positions ≠ m.positions →
      m.propertiesGet.1 = Core.MolecularProperties.ofMol m.positions ∧
      m.propertiesGet.2.raw_properties = Core.MolecularProperties.ofMol m.positions ∧
      ∀ newpos : List Int,
        (({ m.propertiesGet.2 with positions := newpos } :
            Core.Molecule).propertiesGet.1).props = []) := by
  refine ⟨Core.propertiesGet_fst_positions m, Core.propertiesGet_of_match m, ?_⟩
  intro hne
  rw [Core.propertiesGet_of_mismatch m hne]
  refine ⟨rfl, rfl, ?_⟩
  intro newpos
  by_cases hnew : m.positions = newpos
  · rw [Core.propertiesGet_of_match _ (by simpa [Core.MolecularProperties.ofMol] using hnew)]
    simp [Core.MolecularProperties.ofMol]
  · rw [Core.propertiesGet_of_mismatch _ (by simpa [Core.MolecularProperties.ofMol] using hnew)]
    simp [Core.MolecularProperties.ofMol]

/-- Concrete molecule whose stored property snapshot is stale: the cache holds
`potential_energy` at positions `[0,0,0]` but the molecule has moved to
`[1,0,0]`. -/
def mStale : Core.Molecule :=
  { mid := 0
    atoms := [⟨0, 8, 0, some 0⟩]
    residues := []
    positions := [1, 0, 0]
    charge := 0
    constraints := []
    energy_model := none
    integrator := none
    raw_properties := ⟨[0, 0, 0], [("potential_energy", Core.PVal.num 5)]⟩
    dof_override := none }

/-- Witness for C10 at the concrete stale molecule: the read really replaces
the cache with a fresh positions-only snapshot. -/
theorem properties_accessor_fresh_c10_witness :
    mStale.propertiesGet.1 = Core.MolecularProperties.ofMol [1, 0, 0] ∧
    mStale.propertiesGet.2.raw_properties = Core.MolecularProperties.ofMol [1, 0, 0] :=
  ⟨((properties_accessor_fresh_c10 mStale).2.2 (by decide)).1,
   ((properties_accessor_fresh_c10 mStale).2.2 (by decide)).2.1⟩

/-- C7: a molecule of exactly 2 atoms whose integrator removes translation and
rotation, with no other constraints and no explicit dof override, has
`dynamic_dof = 3`: the rotation subtraction is guarded by `num_atoms > 2`, so
only the 3 translational degrees are removed from the 6 dimensions. -/
theorem diatomic_dof_c7 (m : Core.Molecule) (i : Core.Integrator)
    (h0 : m.dof_override = none) (h2 : m.atoms.length = 2)
    (hi : m.integrator = some i) (ht : i.remove_translation = true)
    (hr : i.remove_rotation = true) (hc : i.constraint_opts = none)
    (hcl : m.constraints = []) : m.dynamic_dof = 3 := by
  simp only [Core.Molecule.dynamic_dof, Core.Molecule.ndims, h0, hi, ht, hr, hc, hcl, h2]
  norm_num

/-- Concrete diatomic molecule with both symmetry removals configured. -/
def mDi : Core.Molecule :=
  { mid := 0
    atoms := [⟨0, 1, 0, some 0⟩, ⟨1, 1, 1, some 0⟩]
    residues := []
    positions := [0, 0, 0, 1, 0, 0]
    charge := 0
    constraints := []
    energy_model := none
    integrator := some ⟨false, true, true, none⟩
    raw_properties := ⟨[0, 0, 0, 1, 0, 0], []⟩
    dof_override := none }

/-- Witness for C7 at the concrete diatomic molecule. -/
theorem diatomic_dof_c7_witness : mDi.dynamic_dof = 3 :=
  diatomic_dof_c7 mDi ⟨false, true, true, none⟩ rfl rfl rfl rfl rfl rfl rfl

/-- Concrete two-atom molecule whose integrator removes rotation only: the
claimed formula would subtract 2 or 3 for rotation, the code subtracts
nothing because `num_atoms > 2` fails. -/
def mC6 : Core.Molecule :=
  { mid := 0
    atoms := [⟨0, 6, 0, some 0⟩, ⟨1, 6, 1, some 0⟩]
    residues := []
    positions := [0, 0, 0, 1, 0, 0]
    charge := 0
    constraints := []
    energy_model := none
    integrator := some ⟨false, false, true, none⟩
    raw_properties := ⟨[0, 0, 0, 1, 0, 0], []⟩
    dof_override := none }

/-- C6 counterexample: for the two-atom molecule with rotation removal
configured, the claim's "2 or 3 for removed rotation depending on atom count"
allows only the values 4 = 6 − 2 and 3 = 6 − 3, but `dynamic_dof` computes 6 —
the code subtracts nothing for rotation when the molecule has at most two
atoms. -/
theorem dof_rotation_counterexample_c6 :
    mC6.dynamic_dof = 6 ∧ mC6.dynamic_dof ≠ 4 ∧ mC6.dynamic_dof ≠ 3 := by
  decide

/-- C6 amended: with no explicit override, `dynamic_dof` equals `ndims` minus,
in this fixed order: 3 if the integrator removes translation; 2 for removed
rotation when the molecule has more than two atoms and nothing otherwise; one
per hydrogen atom (atomic number 1) when hydrogen-bond constraints are
configured; a flat 7 per water residue if hydrogen bonds are already
constrained and 9 otherwise; and each constraint's own removed-DOF count. -/
theorem dof_ladder_amended_c6 (m : Core.Molecule)
    (h0 : m.dof_override = none) : m.dynamic_dof = Core.dofLadder m := by
  unfold Core.Molecule.dynamic_dof Core.dofLadder
  rw [h0]
  cases hI : m.integrator with
  | none => simp
  | some i =>
    cases hC : i.constraint_opts with
    | none =>
      by_cases ht : i.remove_translation <;>
        by_cases hr : (i.remove_rotation && decide (m.atoms.length > 2)) = true <;>
          simp [hC, ht, hr]
    | some copts =>
      by_cases ht : i.remove_translation <;>
        by_cases hr : (i.remove_rotation && decide (m.atoms.length > 2)) = true <;>
          by_cases hh : "hbonds" ∈ copts <;>
            by_cases hw : "water" ∈ copts <;>
              simp [hC, ht, hr, hh, hw]

/-- Witness for the amended C6 at the concrete two-atom molecule. -/
theorem dof_ladder_amended_c6_witness :
    mC6.dynamic_dof = Core.dofLadder mC6 ∧ Core.dofLadder mC6 = 6 :=
  ⟨dof_ladder_amended_c6 mC6 rfl, by decide⟩

/-! Computation lemmas for `set_energy_model`, one per charge configuration. -/

theorem set_energy_model_eq_unset (m : Core.Molecule) (model : Core.EnergyModel)
    (hco : model.has_charge_option = true) (hch : model.charge = none) :
    m.set_energy_model model =
      ({ m with
          energy_model := some { model with
            mol := some m.mid, charge := some m.charge, prepped := false }
          raw_properties := Core.MolecularProperties.ofMol m.positions }, false) := by
  unfold Core.Molecule.set_energy_model
  simp [hco, hch]

theorem set_energy_model_eq_set (m : Core.Molecule) (model : Core.EnergyModel)
    (c : Int) (hco : model.has_charge_option = true) (hch : model.charge = some c) :
    m.set_energy_model model =
      ({ m with
          energy_model := some { model with mol := some m.mid, prepped := false }
          raw_properties := Core.MolecularProperties.ofMol m.positions },
       decide (c ≠ m.charge)) := by
  unfold Core.Molecule.set_energy_model
  simp [hco, hch]

theorem set_energy_model_eq_nooption (m : Core.Molecule) (model : Core.EnergyModel)
    (hco : model.has_charge_option = false) :
    m.set_energy_model model =
      ({ m with
          energy_model := some { model with mol := some m.mid, prepped := false }
          raw_properties := Core.MolecularProperties.ofMol m.positions }, false) := by
  unfold Core.Molecule.set_energy_model
  simp [hco]

/-- C9: `set_energy_model` makes the given model the molecule's single bound
energy model, re-seeds the property cache to an empty snapshot at the current
geometry, clears the model's prepared flag, copies the molecule's formal
charge into a declared-but-unset charge option, and treats a mismatched
explicitly-set model charge as a warning only — the binding still completes. -/
theorem set_energy_model_contract_c9 (m : Core.Molecule) (model : Core.EnergyModel) :
    (m.set_energy_model model).1.raw_properties
        = Core.MolecularProperties.ofMol m.positions ∧
    (∃ em, (m.set_energy_model model).1.energy_model = some em ∧
       em.prepped = false ∧ em.mol = some m.mid ∧
       em.default_properties = model.default_properties ∧
       em.has_charge_option = model.has_charge_option ∧
       (model.has_charge_option = true → model.charge = none →
          em.charge = some m.charge) ∧
       (model.has_charge_option = false ∨ model.charge ≠ none →
          em.charge = model.charge)) ∧
    (∀ c : Int, model.has_charge_option = true → model.charge = some c →
       c ≠ m.charge → (m.set_energy_model model).2 = true) ∧
    ((m.set_energy_model model).2 = true →
       (m.set_energy_model model).1.energy_model ≠ none) := by
  by_cases hco : model.has_charge_option = true
  · cases hch : model.charge with
    | none =>
      rw [set_energy_model_eq_unset m model hco hch]
      refine ⟨rfl, ⟨_, rfl, rfl, rfl, rfl, rfl, fun _ _ => rfl, ?_⟩, ?_, ?_⟩
      · rintro (h | h)
        · rw [hco] at h; cases h
        · exact absurd rfl h
      · intro c _ hc
        exact Option.noConfusion hc
      · intro h
        simp at h
    | some c0 =>
      rw [set_energy_model_eq_set m model c0 hco hch]
      refine ⟨rfl, ⟨_, rfl, rfl, rfl, rfl, rfl, ?_, fun _ => hch⟩, ?_, ?_⟩
      · intro _ habs
        exact Option.noConfusion habs
      · intro c _ hc hne
        cases Option.some_inj.mp hc
        simpa using hne
      · intro _
        simp
  · have hco' : model.has_charge_option = false := by
      simpa using hco
    rw [set_energy_model_eq_nooption m model hco']
    refine ⟨rfl, ⟨_, rfl, rfl, rfl, rfl, rfl, ?_, fun _ => rfl⟩, ?_, ?_⟩
    · intro habs
      rw [hco'] at habs; cases habs
    · intro c habs
      rw [hco'] at habs; cases habs
    · intro h
      simp at h

/-- Concrete energy model declaring an explicitly-set charge of 1, mismatching
the molecule's charge 0. -/
def emW : Core.EnergyModel := ⟨true, none, ["potential_energy"], true, some 1⟩

/-- Witness for C9 at a concrete model with a mismatched explicit charge: the
warning is reported and the binding still completes with a reset flag and a
re-seeded cache. -/
theorem set_energy_model_contract_c9_witness :
    (mDi.set_energy_model emW).2 = true ∧
    (mDi.set_energy_model emW).1.energy_model ≠ none ∧
    (mDi.set_energy_model emW).1.raw_properties
      = Core.MolecularProperties.ofMol [0, 0, 0, 1, 0, 0] :=
  ⟨(set_energy_model_contract_c9 mDi emW).2.2.1 1 rfl rfl (by decide),
   (set_energy_model_contract_c9 mDi emW).2.2.2
     ((set_energy_model_contract_c9 mDi emW).2.2.1 1 rfl rfl (by decide)),
   (set_energy_model_contract_c9 mDi emW).1⟩

/-- Concrete molecule with a matching empty cache and a bound model with no
default properties, used by the C3, C4 and C5 evaluations. -/
def mCalcW : Core.Molecule :=
  { mid := 1
    atoms := [⟨0, 8, 0, some 1⟩]
    residues := []
    positions := [0, 0, 0]
    charge := 0
    constraints := []
    energy_model := some ⟨true, some 1, [], false, none⟩
    integrator := none
    raw_properties := ⟨[0, 0, 0], []⟩
    dof_override := none }

/-- Incoming snapshot at the same geometry carrying one calculated value. -/
def pIncoming : Core.MolecularProperties :=
  ⟨[0, 0, 0], [("potential_energy", Core.PVal.num 5)]⟩

/-- C4, evaluated at the failing input: `update_properties` with a
geometry-matching snapshot carrying `potential_energy` succeeds but stores
nothing — the source calls `self.properties.update()` with no argument — so
the cache still holds no values afterwards; the geometry-mismatch assert does
fire; and the `properties` setter (the claim's other half) does replace the
cache. -/
theorem update_properties_noop_c4 :
    mCalcW.update_properties pIncoming = some mCalcW ∧
    mCalcW.raw_properties.props = [] ∧
    mCalcW.update_properties ⟨[1, 1, 1], []⟩ = none ∧
    mCalcW.propertiesSet pIncoming =
      some { mCalcW with raw_properties := pIncoming } := by
  refine ⟨by decide, rfl, by decide, by decide⟩

/-- A model result computed at positions `[9,9,9]`, different from the
molecule's current `[0,0,0]` — the geometry changed between request and
completion. -/
def fStale : List String → Core.MolecularProperties :=
  fun _ => ⟨[9, 9, 9], [("potential_energy", Core.PVal.num 7)]⟩

/-- C5 counterexample: merging the stale result raises no consistency error —
`calculate` succeeds; the result is dict-merged into the cache (overwriting
its positions) and the returning cache read then silently discards it, so the
call returns an empty snapshot at the current geometry and leaves the cache
empty. The claim's predicted failure does not happen. -/
theorem calculate_no_merge_validation_c5 :
    mCalcW.calculate ["potential_energy"] fStale =
      some (Core.MolecularProperties.ofMol [0, 0, 0],
        { mCalcW with raw_properties := Core.MolecularProperties.ofMol [0, 0, 0] }) := by
  decide

/-- C5 amended: the merge in `calculate(wait=True)` is not validated against
the current geometry. Whenever the model's result is computed at positions
different from the molecule's current positions (and something was actually
sent to the model), no error is raised: the stale values are dict-merged and
then silently discarded by the cache read that produces the return value,
leaving — and returning — an empty property snapshot at the current
geometry. -/
theorem calculate_stale_merge_amended_c5 (m : Core.Molecule) (em : Core.EnergyModel)
    (requests : List String) (modelCalc : List String → Core.MolecularProperties)
    (hem : m.energy_model = some em)
    (hne : (Core.Molecule.toCalculate m em requests).isEmpty = false)
    (hstale : (modelCalc (Core.Molecule.toCalculate m em requests)).positions
        ≠ m.positions) :
    m.calculate requests modelCalc =
      some (Core.MolecularProperties.ofMol m.positions,
        { m with raw_properties := Core.MolecularProperties.ofMol m.positions }) := by
  have hsnd : m.propertiesGet.2 = { m with raw_properties := m.propertiesGet.1 } :=
    Core.propertiesGet_snd m
  have hm2 : ∀ p q : Core.MolecularProperties,
      ({ ({ m with raw_properties := p } : Core.Molecule) with raw_properties := q } :
        Core.Molecule) = { m with raw_properties := q } :=
    fun _ _ => rfl
  have hfin := Core.propertiesGet_of_mismatch
    ({ m with raw_properties := (m.propertiesGet.1).updateWith (modelCalc (Core.Molecule.toCalculate m em requests)) })
    (by simpa [Core.MolecularProperties.updateWith] using hstale)
  simp only [Core.Molecule.calculate, hem]
  rw [if_neg (by simp [hne])]
  rw [hsnd, hm2, hfin]
  simp [hem]

/-- Witness for the amended C5: the concrete stale merge ends in the empty
current-geometry snapshot. -/
theorem calculate_stale_merge_amended_c5_witness :
    mCalcW.calculate ["forces"] fStale =
      some (Core.MolecularProperties.ofMol [0, 0, 0],
        { mCalcW with raw_properties := Core.MolecularProperties.ofMol [0, 0, 0] }) :=
  calculate_stale_merge_amended_c5 mCalcW ⟨true, some 1, [], false, none⟩
    ["forces"] fStale rfl (by decide) (by decide)

/-- C8: every constraint-adding operation — fixed position, distance, angle,
dihedral — validates that all referenced atoms belong to this molecule,
failing with `ForeignAtomError` otherwise; on success it computes the target
value from the current geometry when none is given (and keeps a given one),
appends the constraint to the ordered constraint list, and resets the prepared
flag of both the bound energy model and the bound integrator. -/
theorem add_constraint_contract_c8 (m : Core.Molecule) (kind : Core.ConstraintKind)
    (atomsIn : List Core.Atom) (value : Option Core.PVal) :
    ((∃ a ∈ atomsIn, a.parent ≠ some m.mid) →
       m.addConstraint kind atomsIn value = Except.error Core.ForeignAtomError.mk) ∧
    ((∀ a ∈ atomsIn, a.parent = some m.mid) →
       ∃ c m2, m.addConstraint kind atomsIn value = Except.ok (c, m2) ∧
         m2.constraints = m.constraints ++ [c] ∧
         c.kind = kind ∧ c.atomIds = atomsIn.map (fun a => a.id) ∧
         (value = none →
            c.value = Core.TargetValue.geometricValue kind
              (atomsIn.map (fun a => m.atomCoords a))) ∧
         (∀ v, value = some v → c.value = Core.TargetValue.given v) ∧
         (∀ em, m2.energy_model = some em → em.prepped = false) ∧
         (∀ i, m2.integrator = some i → i.prepped = false)) ∧
    (∀ (a : Core.Atom) (pos : Option Core.PVal),
       m.constrain_atom a pos
         = m.addConstraint Core.ConstraintKind.fixedPosition [a] pos) ∧
    (∀ (a1 a2 : Core.Atom) (d : Option Core.PVal),
       m.constrain_distance a1 a2 d
         = m.addConstraint Core.ConstraintKind.distance [a1, a2] d) ∧
    (∀ (a1 a2 a3 : Core.Atom) (ang : Option Core.PVal),
       m.constrain_angle a1 a2 a3 ang
         = m.addConstraint Core.ConstraintKind.angle [a1, a2, a3] ang) ∧
    (∀ (a1 a2 a3 a4 : Core.Atom) (ang : Option Core.PVal),
       m.constrain_dihedral a1 a2 a3 a4 ang
         = m.addConstraint Core.ConstraintKind.dihedral [a1, a2, a3, a4] ang) := by
  refine ⟨?_, ?_, fun _ _ => rfl, fun _ _ _ => rfl, fun _ _ _ _ => rfl,
    fun _ _ _ _ _ => rfl⟩
  · rintro ⟨a, ha, hne⟩
    have hcond : ¬ (atomsIn.all (fun a => a.parent == some m.mid) = true) := by
      rw [List.all_eq_true]
      intro hall
      exact hne (by simpa using hall a ha)
    simp [Core.Molecule.addConstraint, hcond]
  · intro hall
    have hcond : atomsIn.all (fun a => a.parent == some m.mid) = true := by
      rw [List.all_eq_true]
      intro a ha
      simpa using hall a ha
    unfold Core.Molecule.addConstraint
    rw [if_pos hcond]
    refine ⟨_, _, rfl, ?_, rfl, rfl, ?_, ?_, ?_, ?_⟩
    · simp [Core.Molecule.reset_methods]
    · intro hv
      rw [hv]
    · intro v hv
      rw [hv]
    · intro em hem
      simp only [Core.Molecule.reset_methods, Option.map_eq_some'] at hem
      obtain ⟨em0, _, hback⟩ := hem
      rw [← hback]
    · intro i hi
      simp only [Core.Molecule.reset_methods, Option.map_eq_some'] at hi
      obtain ⟨i0, _, hback⟩ := hi
      rw [← hback]

/-- Witness for C8 at concrete inputs: adding a distance constraint between
the diatomic molecule's own atoms succeeds and appends exactly one constraint,
and a constraint naming an atom of another molecule fails. -/
theorem add_constraint_contract_c8_witness :
    (∃ c m2, mDi.addConstraint Core.ConstraintKind.distance
        [⟨0, 1, 0, some 0⟩, ⟨1, 1, 1, some 0⟩] none = Except.ok (c, m2) ∧
      m2.constraints = mDi.constraints ++ [c] ∧
      c.kind = Core.ConstraintKind.distance ∧
      c.atomIds = ([⟨0, 1, 0, some 0⟩, ⟨1, 1, 1, some 0⟩] :
          List Core.Atom).map (fun a => a.id) ∧
      ((none : Option Core.PVal) = none →
         c.value = Core.TargetValue.geometricValue Core.ConstraintKind.distance
           (([⟨0, 1, 0, some 0⟩, ⟨1, 1, 1, some 0⟩] :
               List Core.Atom).map (fun a => mDi.atomCoords a))) ∧
      (∀ v, (none : Option Core.PVal) = some v →
         c.value = Core.TargetValue.given v) ∧
      (∀ em, m2.energy_model = some em → em.prepped = false) ∧
      (∀ i, m2.integrator = some i → i.prepped = false)) ∧
    mDi.addConstraint Core.ConstraintKind.fixedPosition [⟨9, 1, 0, some 5⟩] none
      = Except.error Core.ForeignAtomError.mk :=
  ⟨(add_constraint_contract_c8 mDi Core.ConstraintKind.distance
      [⟨0, 1, 0, some 0⟩, ⟨1, 1, 1, some 0⟩] none).2.1 (by decide),
   (add_constraint_contract_c8 mDi Core.ConstraintKind.fixedPosition
      [⟨9, 1, 0, some 5⟩] none).1 ⟨⟨9, 1, 0, some 5⟩, by decide, by decide⟩⟩

/-- C3: `get_property(name)` returns the cached value exactly when the name is
present in the property cache and the cache's stored positions equal the
molecule's current positions (the condition of line 263, checked on the
snapshot the `properties` accessor hands out); otherwise it raises a
`NotCalculatedError` whose message names the missing property and suggests the
`.calc_<name>()` method; and after a successful `calculate()` whose request
set includes the name — the model returning the requested values computed at
the current geometry — `get_property(name)` succeeds. -/
theorem get_property_contract_c3 (m : Core.Molecule) (name : String) :
    (∀ v, (m.get_property name).1 = Except.ok v ↔
       ((m.propertiesGet.1).getVal name = some v ∧
        (m.propertiesGet.1).geometry_matches m.positions = true)) ∧
    (∀ e, (m.get_property name).1 = Except.error e → e = Core.notCalculated name) ∧
    (∀ (requests : List String) (modelCalc : List String → Core.MolecularProperties)
       (res : Core.MolecularProperties) (m2 : Core.Molecule),
       name ∈ requests →
       (∀ s, name ∈ s → (modelCalc s).hasKey name = true) →
       (∀ s, (modelCalc s).positions = m.positions) →
       m.calculate requests modelCalc = some (res, m2) →
       ∃ v, (m2.get_property name).1 = Except.ok v) :=
  ⟨fun v => Core.get_property_ok_iff m name v,
   fun e => Core.get_property_error_eq m name e,
   fun requests modelCalc res m2 hreq hf1 hf2 hcalc =>
     Core.calculate_then_get m name requests modelCalc res m2 hreq hf1 hf2 hcalc⟩

/-- A model result containing the requested `potential_energy`, computed at
the molecule's current geometry. -/
def fGood : List String → Core.MolecularProperties :=
  fun _ => ⟨[0, 0, 0], [("potential_energy", Core.PVal.num 7)]⟩

/-- The snapshot `calculate` produces for `mCalcW` with `fGood`. -/
def resGood : Core.MolecularProperties :=
  ⟨[0, 0, 0], [("potential_energy", Core.PVal.num 7)]⟩

/-- The molecule state after that successful calculation. -/
def mAfter : Core.Molecule := { mCalcW with raw_properties := resGood }

/-- Witness for C3: after the concrete successful `calculate` request for
`potential_energy`, `get_property` succeeds. -/
theorem get_property_contract_c3_witness :
    ∃ v, (mAfter.get_property "potential_energy").1 = Except.ok v :=
  (get_property_contract_c3 mCalcW "potential_energy").2.2 ["potential_energy"]
    fGood resGood mAfter (by decide) (fun _ _ => rfl) (fun _ => rfl) (by decide)

end MolDesign
